import Mathlib

/-!
Verification of the translation/extraction orchestration layer of the
youtube-lyrics-translator repository.

The development shallowly embeds the JavaScript code of
`src/api/translateApi.js` and `src/api/lyricsApi.js` into Lean:

* strings are Lean `String`s (JS `.length` counts UTF-16 units; Lean counts
  characters — identical on the inputs considered here);
* JS truthiness of a string is emptiness testing;
* a JS value that may be absent or non-string is an `Option String`;
* the network is abstracted: a provider is a function from the chunk text to
  `Except TranslationError ProviderSuccess`, and an HTTP response is a record
  of the fields the code reads (`ok`, `status`, body fields);
* `async/await` control flow with `try/catch` becomes the `Except` monad,
  unfolded into explicit `match` expressions mirroring the source branches.
-/

/-- Character class of the JavaScript regex `\s` (ECMAScript WhiteSpace and
LineTerminator), used by `text.split(/(?<=[.!?])\s+/)` and `String.trim`. -/
def jsIsWs (c : Char) : Bool :=
  let n := c.toNat
  n = 0x20 || n = 0x9 || n = 0xa || n = 0xb || n = 0xc || n = 0xd ||
  n = 0xa0 || n = 0x1680 || (0x2000 ≤ n && n ≤ 0x200a) ||
  n = 0x2028 || n = 0x2029 || n = 0x202f || n = 0x205f || n = 0x3000 || n = 0xfeff

/-- ASCII lowering of one character, modelling JS `String.prototype.toLowerCase`
(the language table in `getLanguageCode` only contains ASCII keys, so the
ASCII fragment is the relevant one). -/
def jsLowerChar (c : Char) : Char :=
  if c = 'A' then 'a' else if c = 'B' then 'b' else if c = 'C' then 'c'
  else if c = 'D' then 'd' else if c = 'E' then 'e' else if c = 'F' then 'f'
  else if c = 'G' then 'g' else if c = 'H' then 'h' else if c = 'I' then 'i'
  else if c = 'J' then 'j' else if c = 'K' then 'k' else if c = 'L' then 'l'
  else if c = 'M' then 'm' else if c = 'N' then 'n' else if c = 'O' then 'o'
  else if c = 'P' then 'p' else if c = 'Q' then 'q' else if c = 'R' then 'r'
  else if c = 'S' then 's' else if c = 'T' then 't' else if c = 'U' then 'u'
  else if c = 'V' then 'v' else if c = 'W' then 'w' else if c = 'X' then 'x'
  else if c = 'Y' then 'y' else if c = 'Z' then 'z' else c

/-- JS `s.toLowerCase()` (ASCII fragment). -/
def jsToLower (s : String) : String :=
  String.mk (s.toList.map jsLowerChar)

/-- JS `s.trim()`: strip leading and trailing `\s` characters. -/
def jsTrim (s : String) : String :=
  String.mk (((s.toList.dropWhile jsIsWs).reverse.dropWhile jsIsWs).reverse)

/-- The `TranslationError` class of `src/api/translateApi.js` (lines 2-9):
a message, a `type` tag, and an optional HTTP status code.  The same record
also models the `error` object of the failure envelope returned by
`translate`, which copies exactly these three fields. -/
structure TranslationError where
  message : String
  type : String
  statusCode : Option Nat
deriving DecidableEq, Repr

/-- The `langMap` object literal of `getLanguageCode`
(`src/api/translateApi.js` lines 21-50), as an association list. -/
def langMap : List (String × String) :=
  [("sinhala", "si"), ("si", "si"),
   ("tamil", "ta"), ("ta", "ta"),
   ("english", "en"), ("en", "en"),
   ("hindi", "hi"), ("hi", "hi"),
   ("spanish", "es"), ("es", "es"),
   ("french", "fr"), ("fr", "fr"),
   ("german", "de"), ("de", "de"),
   ("italian", "it"), ("it", "it"),
   ("portuguese", "pt"), ("pt", "pt"),
   ("russian", "ru"), ("ru", "ru"),
   ("japanese", "ja"), ("ja", "ja"),
   ("korean", "ko"), ("ko", "ko"),
   ("chinese", "zh"), ("zh", "zh"),
   ("arabic", "ar"), ("ar", "ar")]

/-- String fragment of `TranslateApi.getLanguageCode`
(`src/api/translateApi.js` lines 20-53):
`return langMap[language.toLowerCase()] || language.toLowerCase();` for
inputs whose lower-casing is not an inherited `Object.prototype` property
name.  On those inputs the result is a string and this is the behaviour the
orchestrator's envelope fields see.  The full resolver, including the
prototype-chain hits of the JS bracket lookup (`langMap["constructor"]`
returns the inherited, truthy `Object.prototype.constructor`), is
`getLanguageCodeJs` below. -/
def getLanguageCode (language : String) : String :=
  match langMap.lookup (jsToLower language) with
  | some code => code
  | none => jsToLower language

/-- The own property names of `Object.prototype`: bracket access on the
`langMap` object literal falls through to these after missing the literal's
own entries, and each of their values is truthy (a function, or an object
for `__proto__`), so `langMap[key] || fallback` returns the inherited
member for these keys.  Only the all-lowercase names (`"constructor"`,
`"__proto__"`) are reachable after `language.toLowerCase()`. -/
def objectProtoKeys : List String :=
  ["constructor", "__proto__", "hasOwnProperty", "isPrototypeOf",
   "propertyIsEnumerable", "toLocaleString", "toString", "valueOf",
   "__defineGetter__", "__defineSetter__", "__lookupGetter__",
   "__lookupSetter__"]

/-- A value `getLanguageCode` can return: a string (own-entry hit or
lower-cased passthrough), or an inherited non-string `Object.prototype`
member reached through the prototype chain of the object literal. -/
inductive JsValue where
  | str (s : String)
  | protoMember (name : String)
deriving DecidableEq, Repr

/-- `TranslateApi.getLanguageCode` with full JS bracket-lookup semantics:
own entries of the `langMap` literal first, then the prototype chain of
`Object.prototype` (whose members are truthy, so `||` returns them), then
the falsy `undefined` miss falls through to the lower-cased input. -/
def getLanguageCodeJs (language : String) : JsValue :=
  match langMap.lookup (jsToLower language) with
  | some code => .str code
  | none =>
    if jsToLower language ∈ objectProtoKeys then .protoMember (jsToLower language)
    else .str (jsToLower language)

/-- Applying the source `getLanguageCode` to a value produced by a previous
application: on a string it proceeds normally; on an inherited non-string
member, `language.toLowerCase()` is not a function (neither functions nor
`Object.prototype` have a `toLowerCase` member) and the call throws a
`TypeError`. -/
def getLanguageCodeJsStep (language : JsValue) : Except String JsValue :=
  match language with
  | .str s => .ok (getLanguageCodeJs s)
  | .protoMember _ => .error "TypeError: language.toLowerCase is not a function"

/-- `TranslateApi.validateTranslationRequest` (`src/api/translateApi.js`
lines 56-84).  The `text` argument is `none` when the JS caller passes a
non-string value (then `typeof text !== 'string'` fires); a falsy string is
the empty string.  `this.maxTextLength` is 5000 (line 16).  Returns the
thrown `TranslationError`, or `none` when validation passes. -/
def validateTranslationRequest (text : Option String) (targetLang : String) :
    Option TranslationError :=
  match text with
  | none => some ⟨"Text is required for translation", "MISSING_TEXT", none⟩
  | some t =>
    if t = "" then
      some ⟨"Text is required for translation", "MISSING_TEXT", none⟩
    else if jsTrim t = "" then
      some ⟨"Text cannot be empty", "EMPTY_TEXT", none⟩
    else if 5000 < t.length then
      some ⟨"Text too long. Maximum 5000 characters allowed", "TEXT_TOO_LONG", none⟩
    else if targetLang = "" then
      some ⟨"Target language is required", "MISSING_TARGET_LANGUAGE", none⟩
    else
      none

/-- Sentence-ending punctuation of the chunker's split regex `[.!?]`. -/
def isSentenceEnd (c : Char) : Bool :=
  c = '.' || c = '!' || c = '?'

/-- Lookbehind condition of `/(?<=[.!?])\s+/`: a split starts at character `c`
when `c` is whitespace and the previous character (head of the reversed
accumulator `acc`) is `.`, `!` or `?`. -/
def sentenceBreakHere (acc : List Char) (c : Char) : Bool :=
  match acc with
  | [] => false
  | p :: _ => isSentenceEnd p && jsIsWs c

/-- Scanner for `text.split(/(?<=[.!?])\s+/)`.  State `some acc`: building a
sentence whose characters so far are `acc`, reversed.  State `none`: inside a
separator, consuming the (maximal, greedy) whitespace run that follows a
sentence-ending punctuation mark. -/
def sentencesGo (l : List Char) (acc : Option (List Char)) : List (List Char) :=
  match l, acc with
  | [], some a => [a.reverse]
  | [], none => [[]]
  | c :: rest, some a =>
    if sentenceBreakHere a c then a.reverse :: sentencesGo rest none
    else sentencesGo rest (some (c :: a))
  | c :: rest, none =>
    if jsIsWs c then sentencesGo rest none
    else sentencesGo rest (some [c])

/-- `text.split(/(?<=[.!?])\s+/)` of `splitTextIntoChunks`
(`src/api/translateApi.js` line 93). -/
def splitSentences (l : List Char) : List (List Char) :=
  sentencesGo l (some [])

/-- Scanner for `sentence.split(' ')` (single-space separator, empty pieces
kept, as in JS). -/
def splitSpaceAux (l : List Char) (acc : List Char) : List (List Char) :=
  match l with
  | [] => [acc.reverse]
  | c :: rest =>
    if c = ' ' then acc.reverse :: splitSpaceAux rest []
    else splitSpaceAux rest (c :: acc)

/-- `sentence.split(' ')` of `splitTextIntoChunks`
(`src/api/translateApi.js` line 105). -/
def splitSpace (l : List Char) : List (List Char) :=
  splitSpaceAux l []

/-- The accumulation step `chunk += (chunk ? ' ' : '') + piece` used for both
`currentChunk` (line 98) and `wordChunk` (line 110). -/
def joinStep (chunk piece : List Char) : List Char :=
  chunk ++ (if chunk.isEmpty then [] else [' ']) ++ piece

/-- The inner word loop of `splitTextIntoChunks`
(`src/api/translateApi.js` lines 105-115): greedy packing of the words of an
over-long sentence.  Returns the list of chunks pushed by the loop and the
final `wordChunk`. -/
def wordLoop (maxChunkSize : Nat) : List (List Char) → List Char →
    List (List Char) × List Char
  | [], wordChunk => ([], wordChunk)
  | w :: ws, wordChunk =>
    if wordChunk.length + w.length ≤ maxChunkSize then
      wordLoop maxChunkSize ws (joinStep wordChunk w)
    else
      let r := wordLoop maxChunkSize ws w
      (if wordChunk.isEmpty then r.1 else wordChunk :: r.1, r.2)

/-- The outer sentence loop of `splitTextIntoChunks`
(`src/api/translateApi.js` lines 96-120).  Returns the list of pushed chunks
and the final `currentChunk`.  In the over-long-first-sentence branch the JS
`if (wordChunk) currentChunk = wordChunk;` is equivalent to
`currentChunk = wordChunk` because `currentChunk` is empty there. -/
def sentenceLoop (maxChunkSize : Nat) : List (List Char) → List Char →
    List (List Char) × List Char
  | [], currentChunk => ([], currentChunk)
  | s :: ss, currentChunk =>
    if currentChunk.length + s.length ≤ maxChunkSize then
      sentenceLoop maxChunkSize ss (joinStep currentChunk s)
    else if !currentChunk.isEmpty then
      let r := sentenceLoop maxChunkSize ss s
      (currentChunk :: r.1, r.2)
    else
      let w := wordLoop maxChunkSize (splitSpace s) []
      let r := sentenceLoop maxChunkSize ss w.2
      (w.1 ++ r.1, r.2)

/-- `TranslateApi.splitTextIntoChunks` (`src/api/translateApi.js`
lines 87-127).  The JS default for `maxChunkSize` is 4000; callers here pass
it explicitly. -/
def splitTextIntoChunks (text : String) (maxChunkSize : Nat) : List String :=
  if text.length ≤ maxChunkSize then [text]
  else
    let r := sentenceLoop maxChunkSize (splitSentences text.toList) []
    let chunks := if r.2.isEmpty then r.1 else r.1 ++ [r.2]
    chunks.map String.mk

/-- The normalized provider result `{ translatedText, detectedLanguage,
provider }` returned by `translateWithGoogle` / `translateWithLibre`. -/
structure ProviderSuccess where
  translatedText : String
  detectedLanguage : String
  provider : String
deriving DecidableEq, Repr

/-- The `data` object of a successful `TranslationResult`
(`src/api/translateApi.js` lines 332-342). -/
structure TranslationData where
  originalText : String
  translatedText : String
  sourceLanguage : String
  targetLanguage : String
  provider : Option String
  chunkCount : Nat
deriving DecidableEq, Repr

/-- The envelope returned by `TranslateApi.translate`: either
`{success:true, data}` or `{success:false, error}`. -/
inductive TranslationResult where
  | ok (data : TranslationData)
  | fail (error : TranslationError)
deriving DecidableEq, Repr

/-- The detected-language update of the orchestrator loop
(`src/api/translateApi.js` lines 327-329):
`if (detectedLang === 'auto' && chunkResult.detectedLanguage) detectedLang =
chunkResult.detectedLanguage;`. -/
def updDetected (detectedLang : String) (r : ProviderSuccess) : String :=
  if detectedLang = "auto" ∧ r.detectedLanguage ≠ "" then
    r.detectedLanguage
  else detectedLang

/-- The error thrown when both providers fail for a chunk
(`src/api/translateApi.js` lines 317-320). -/
def allServicesFailedErr : TranslationError :=
  ⟨"All translation services are currently unavailable", "ALL_SERVICES_FAILED", none⟩

/-- The per-chunk loop of `TranslateApi.translate`
(`src/api/translateApi.js` lines 301-330).  Providers are abstracted as
functions from the chunk text to a result (target and source language are
fixed for the whole request, so they are baked into the provider function).
State: the accumulated `detectedLang` and `usedProvider`; returns the list of
translated chunks together with the final state, or the thrown error. -/
def translateChunks (google libre : String → Except TranslationError ProviderSuccess) :
    List String → String → Option String →
    Except TranslationError (List String × String × Option String)
  | [], detectedLang, usedProvider => .ok ([], detectedLang, usedProvider)
  | chunk :: rest, detectedLang, usedProvider =>
    match google chunk with
    | .ok r =>
      match translateChunks google libre rest (updDetected detectedLang r) (some "google") with
      | .ok (ts, dl, up) => .ok (r.translatedText :: ts, dl, up)
      | .error e => .error e
    | .error _ =>
      match libre chunk with
      | .ok r =>
        match translateChunks google libre rest (updDetected detectedLang r) (some "libretranslate") with
        | .ok (ts, dl, up) => .ok (r.translatedText :: ts, dl, up)
        | .error e => .error e
      | .error _ => .error allServicesFailedErr

/-- `TranslateApi.translate` (`src/api/translateApi.js` lines 291-354).
Validation failure and any error thrown inside the chunk loop are caught by
the surrounding `try/catch` and turned into the failure envelope.  When
validation passes, `text` is necessarily `some t`, so `Option.getD` never
sees its default. -/
def TranslateApi.translate (google libre : String → Except TranslationError ProviderSuccess)
    (text : Option String) (targetLanguage sourceLanguage : String) :
    TranslationResult :=
  match validateTranslationRequest text targetLanguage with
  | some e => .fail ⟨e.message, e.type, e.statusCode⟩
  | none =>
    let t := text.getD ""
    let chunks := splitTextIntoChunks t 4000
    match translateChunks google libre chunks sourceLanguage none with
    | .error e => .fail ⟨e.message, e.type, e.statusCode⟩
    | .ok (ts, detectedLang, usedProvider) =>
      .ok ⟨t, String.intercalate " " ts, detectedLang,
           getLanguageCode targetLanguage, usedProvider, chunks.length⟩

/-- The fields of a Google Translate HTTP response that
`translateWithGoogle` reads (`src/api/translateApi.js` lines 160-191):
`response.ok`, `response.status`, `errorData.error?.message`, and
`data.data?.translations?.[0]?` (translated text and detected language,
`none` when the path is absent). -/
structure GoogleResp where
  ok : Bool
  status : Nat
  errorMessage : Option String
  translatedText : Option String
  detectedSourceLanguage : Option String
deriving DecidableEq, Repr

/-- The response-dependent part of `TranslateApi.translateWithGoogle`
(`src/api/translateApi.js` lines 130-191): the API-key guard and the
classification of the HTTP response.  `hasKey` models
`this.googleTranslateKey` being configured; the network transport itself
(fetch, abort, timeout) is outside the embedding. -/
def translateWithGoogleResp (hasKey : Bool) (sourceLang : String)
    (resp : GoogleResp) : Except TranslationError ProviderSuccess :=
  if !hasKey then
    .error ⟨"Google Translate API key not configured", "API_KEY_MISSING", none⟩
  else if !resp.ok then
    if resp.status = 403 then
      .error ⟨"Google Translate quota exceeded or invalid API key", "QUOTA_EXCEEDED", some 403⟩
    else
      .error ⟨resp.errorMessage.getD "Google Translate API error", "GOOGLE_API_ERROR", some resp.status⟩
  else
    match resp.translatedText with
    | none => .error ⟨"Invalid response from Google Translate", "INVALID_RESPONSE", none⟩
    | some t =>
      if t = "" then
        .error ⟨"Invalid response from Google Translate", "INVALID_RESPONSE", none⟩
      else
        .ok ⟨t, match resp.detectedSourceLanguage with
                | some d => if d = "" then sourceLang else d
                | none => sourceLang,
             "google"⟩

/-- The fields of a LibreTranslate HTTP response that `translateWithLibre`
reads (`src/api/translateApi.js` lines 236-267): `response.ok`,
`response.status`, `errorData.error`, `data.translatedText`,
`data.detectedLanguage`. -/
structure LibreResp where
  ok : Bool
  status : Nat
  errorMessage : Option String
  translatedText : Option String
  detectedLanguage : Option String
deriving DecidableEq, Repr

/-- The response-dependent part of `TranslateApi.translateWithLibre`
(`src/api/translateApi.js` lines 215-267). -/
def translateWithLibreResp (sourceLang : String) (resp : LibreResp) :
    Except TranslationError ProviderSuccess :=
  if !resp.ok then
    if resp.status = 429 then
      .error ⟨"Translation rate limit exceeded", "RATE_LIMITED", some 429⟩
    else
      .error ⟨resp.errorMessage.getD "LibreTranslate API error", "LIBRE_API_ERROR", some resp.status⟩
  else
    match resp.translatedText with
    | none => .error ⟨"Invalid response from LibreTranslate", "INVALID_RESPONSE", none⟩
    | some t =>
      if t = "" then
        .error ⟨"Invalid response from LibreTranslate", "INVALID_RESPONSE", none⟩
      else
        .ok ⟨t, match resp.detectedLanguage with
                | some d => if d = "" then sourceLang else d
                | none => sourceLang,
             "libretranslate"⟩

/-- The `type` tag of a failed provider call, `none` on success. -/
def exceptErrType (r : Except TranslationError ProviderSuccess) : Option String :=
  match r with
  | .error e => some e.type
  | .ok _ => none

/-- The `LyricsApiError` class of `src/api/lyricsApi.js` (lines 2-9). -/
structure LyricsApiError where
  message : String
  type : String
  statusCode : Option Nat
deriving DecidableEq, Repr

/-- The fields of a backend HTTP response that `LyricsApi.makeRequest` reads
in its `!response.ok` branch (`src/api/lyricsApi.js` lines 56-91):
`response.ok`, `response.status` and `errorData.message`. -/
structure BackendResp where
  ok : Bool
  status : Nat
  errorMessage : Option String
deriving DecidableEq, Repr

/-- The HTTP-status classification of `LyricsApi.makeRequest`
(`src/api/lyricsApi.js` lines 56-91): the `switch (response.status)`
mapping, `none` when `response.ok`. -/
def makeRequestClassify (resp : BackendResp) : Option LyricsApiError :=
  if resp.ok then none
  else if resp.status = 400 then
    some ⟨resp.errorMessage.getD "Invalid request parameters", "INVALID_REQUEST", some 400⟩
  else if resp.status = 404 then
    some ⟨"Video not found or unavailable", "VIDEO_NOT_FOUND", some 404⟩
  else if resp.status = 429 then
    some ⟨"Rate limit exceeded. Please try again later", "RATE_LIMITED", some 429⟩
  else if resp.status = 500 then
    some ⟨"Server error. Please try again later", "SERVER_ERROR", some 500⟩
  else
    some ⟨resp.errorMessage.getD ("HTTP " ++ toString resp.status), "HTTP_ERROR", some resp.status⟩

/-- The non-retryable `type` allowlist of `LyricsApi.withRetry`
(`src/api/lyricsApi.js` lines 258-260). -/
def nonRetryable (e : LyricsApiError) : Bool :=
  e.type == "INVALID_URL" || e.type == "VIDEO_NOT_FOUND" || e.type == "NO_LYRICS_FOUND"

deriving instance DecidableEq for Except

/-- Observable trace of one `withRetry` run: the outcome (on failure, the
thrown error — `none` models JS throwing the undefined `lastError` when the
loop body never ran), the number of times `operation` was invoked, and the
list of backoff delays that were awaited, in order. -/
structure RetryRun (α : Type) where
  outcome : Except (Option LyricsApiError) α
  calls : Nat
  delays : List Nat
deriving DecidableEq, Repr

/-- The loop of `LyricsApi.withRetry` (`src/api/lyricsApi.js` lines 248-274)
from iteration `attempt` on.  The operation is modelled as a function from
the (1-based) attempt number to that invocation's outcome.  `remaining` is
the number of loop iterations still allowed; the caller ties it to the loop
bound `attempt <= maxRetries` by passing `maxRetries + 1 - attempt`, so the
recursion is structural. -/
def withRetryGo (op : Nat → Except LyricsApiError α) (maxRetries delay : Nat) :
    Nat → Nat → Option LyricsApiError → RetryRun α
  | 0, _, lastError => ⟨.error lastError, 0, []⟩
  | remaining + 1, attempt, _ =>
    match op attempt with
    | .ok a => ⟨.ok a, 1, []⟩
    | .error e =>
      if nonRetryable e then ⟨.error (some e), 1, []⟩
      else if attempt = maxRetries then ⟨.error (some e), 1, []⟩
      else
        let r := withRetryGo op maxRetries delay remaining (attempt + 1) (some e)
        ⟨r.outcome, r.calls + 1, delay * 2 ^ (attempt - 1) :: r.delays⟩

/-- `LyricsApi.withRetry` (`src/api/lyricsApi.js` lines 248-274); the JS
defaults are `maxRetries = 3`, `delay = 1000`. -/
def withRetry (op : Nat → Except LyricsApiError α) (maxRetries delay : Nat) :
    RetryRun α :=
  withRetryGo op maxRetries delay maxRetries 1 none

/-- The words of a character list: maximal runs of non-whitespace characters,
in order.  This is the specification-side notion used to state that the
chunker loses no words (`cur` is the current word, reversed). -/
def wordsOfGo (l : List Char) (cur : List Char) : List (List Char) :=
  match l with
  | [] => if cur.isEmpty then [] else [cur.reverse]
  | c :: rest =>
    if jsIsWs c then
      if cur.isEmpty then wordsOfGo rest [] else cur.reverse :: wordsOfGo rest []
    else wordsOfGo rest (c :: cur)

/-- The whitespace-separated words of a character list. -/
def wordsOf (l : List Char) : List (List Char) :=
  wordsOfGo l []

/-- Joining a list of chunks with single spaces, as
`translatedChunks.join(' ')` does and as the chunk-reassembly invariant is
stated. -/
def joinSp : List (List Char) → List Char
  | [] => []
  | [x] => x
  | x :: xs => x ++ ' ' :: joinSp xs

/-- Constantly failing provider used by concrete instantiations. -/
def provFail : String → Except TranslationError ProviderSuccess :=
  fun _ => .error ⟨"Google Translate service unavailable", "SERVICE_UNAVAILABLE", none⟩

/-- Provider that fails with `RATE_LIMITED`, used by concrete instantiations. -/
def provRateLimited : String → Except TranslationError ProviderSuccess :=
  fun _ => .error ⟨"Translation rate limit exceeded", "RATE_LIMITED", some 429⟩

/-- Provider that succeeds with a fixed result, used by concrete
instantiations. -/
def provOk : String → Except TranslationError ProviderSuccess :=
  fun _ => .ok ⟨"hola", "en", "libretranslate"⟩

/-- Operation observed to fail with `NETWORK_ERROR` on every invocation. -/
def opNetworkFail : Nat → Except LyricsApiError Unit :=
  fun _ => .error ⟨"Network error. Please check your connection", "NETWORK_ERROR", none⟩

/-- Operation observed to fail with `NO_LYRICS_FOUND` on every invocation. -/
def opNoLyrics : Nat → Except LyricsApiError Unit :=
  fun _ => .error ⟨"No lyrics found in this video. Try a video with clear vocals or captions", "NO_LYRICS_FOUND", none⟩

/-- `jsLowerChar` is idempotent: it maps into characters it fixes. -/
theorem jsLowerChar_idem (c : Char) : jsLowerChar (jsLowerChar c) = jsLowerChar c := by
  by_cases h1 : c = 'A'
  · subst h1; decide
  by_cases h2 : c = 'B'
  · subst h2; decide
  by_cases h3 : c = 'C'
  · subst h3; decide
  by_cases h4 : c = 'D'
  · subst h4; decide
  by_cases h5 : c = 'E'
  · subst h5; decide
  by_cases h6 : c = 'F'
  · subst h6; decide
  by_cases h7 : c = 'G'
  · subst h7; decide
  by_cases h8 : c = 'H'
  · subst h8; decide
  by_cases h9 : c = 'I'
  · subst h9; decide
  by_cases h10 : c = 'J'
  · subst h10; decide
  by_cases h11 : c = 'K'
  · subst h11; decide
  by_cases h12 : c = 'L'
  · subst h12; decide
  by_cases h13 : c = 'M'
  · subst h13; decide
  by_cases h14 : c = 'N'
  · subst h14; decide
  by_cases h15 : c = 'O'
  · subst h15; decide
  by_cases h16 : c = 'P'
  · subst h16; decide
  by_cases h17 : c = 'Q'
  · subst h17; decide
  by_cases h18 : c = 'R'
  · subst h18; decide
  by_cases h19 : c = 'S'
  · subst h19; decide
  by_cases h20 : c = 'T'
  · subst h20; decide
  by_cases h21 : c = 'U'
  · subst h21; decide
  by_cases h22 : c = 'V'
  · subst h22; decide
  by_cases h23 : c = 'W'
  · subst h23; decide
  by_cases h24 : c = 'X'
  · subst h24; decide
  by_cases h25 : c = 'Y'
  · subst h25; decide
  by_cases h26 : c = 'Z'
  · subst h26; decide
  have hc : jsLowerChar c = c := by
    simp only [jsLowerChar, if_neg h1, if_neg h2, if_neg h3, if_neg h4, if_neg h5, if_neg h6, if_neg h7, if_neg h8, if_neg h9, if_neg h10, if_neg h11, if_neg h12, if_neg h13, if_neg h14, if_neg h15, if_neg h16, if_neg h17, if_neg h18, if_neg h19, if_neg h20, if_neg h21, if_neg h22, if_neg h23, if_neg h24, if_neg h25, if_neg h26]
  rw [hc, hc]

/-- `jsToLower` is idempotent. -/
theorem jsToLower_idem (s : String) : jsToLower (jsToLower s) = jsToLower s := by
  unfold jsToLower
  have h : ∀ l : List Char,
      List.map jsLowerChar (List.map jsLowerChar l) = List.map jsLowerChar l := by
    intro l
    rw [List.map_map]
    exact List.map_congr_left (fun a _ => jsLowerChar_idem a)
  show String.mk (List.map jsLowerChar (String.toList (String.mk (List.map jsLowerChar s.toList)))) =
       String.mk (List.map jsLowerChar s.toList)
  rw [show String.toList (String.mk (List.map jsLowerChar s.toList)) =
        List.map jsLowerChar s.toList from rfl, h]

/-- A successful association-list lookup yields a member pair. -/
theorem lookup_mem {α β : Type} [BEq α] [LawfulBEq α] {l : List (α × β)} {k : α}
    {v : β} (h : List.lookup k l = some v) : (k, v) ∈ l := by
  induction l with
  | nil => simp [List.lookup] at h
  | cons p rest ih =>
    obtain ⟨a, b⟩ := p
    rw [List.lookup] at h
    cases hka : k == a with
    | true =>
      rw [hka] at h
      simp only [Option.some.injEq] at h
      subst h
      have : k = a := eq_of_beq hka
      subst this
      exact List.mem_cons_self _ _
    | false =>
      rw [hka] at h
      exact List.mem_cons_of_mem _ (ih h)

/-- Every code in the range of `langMap` is itself a key looked up to
itself (the codes are already lower-case). -/
theorem langMap_values_lookup :
    ∀ p ∈ langMap, langMap.lookup (jsToLower p.2) = some p.2 := by decide

/-- No inherited `Object.prototype` property name is an own entry of the
`langMap` literal. -/
theorem protoKeys_lookup_none :
    ∀ k ∈ objectProtoKeys, langMap.lookup k = none := by decide

/-- Counterexample to claim C10: the resolver is not idempotent on every
string.  `langMap["constructor"]` misses the literal's own entries but hits
the inherited, truthy `Object.prototype.constructor` through the prototype
chain, so `getLanguageCode("constructor")` returns a function — not the
lower-cased passthrough — and a second application calls `.toLowerCase()` on
a non-string and throws a `TypeError` instead of returning anything. -/
theorem getLanguageCode_idem_counterexample :
    getLanguageCodeJs "constructor" = .protoMember "constructor" ∧
    getLanguageCodeJs "constructor" ≠ .str "constructor" ∧
    getLanguageCodeJsStep (getLanguageCodeJs "constructor") =
      .error "TypeError: language.toLowerCase is not a function" := by decide

/-- Claim C10 as amended: for every string whose lower-casing is not an
inherited `Object.prototype` property name, the resolver returns a string
and is idempotent — codes in the mapping resolve to themselves, and unknown
input, passed through lower-cased, resolves to itself on a second
application.  For the remaining strings (lower-casing to `"constructor"` or
`"__proto__"`), the first application returns the inherited non-string
member and a second application throws a `TypeError`. -/
theorem getLanguageCodeJs_idem (s : String) :
    (jsToLower s ∉ objectProtoKeys →
      getLanguageCodeJsStep (getLanguageCodeJs s) = .ok (getLanguageCodeJs s)) ∧
    (jsToLower s ∈ objectProtoKeys →
      getLanguageCodeJsStep (getLanguageCodeJs s) =
        .error "TypeError: language.toLowerCase is not a function") := by
  constructor
  · intro h
    cases hl : langMap.lookup (jsToLower s) with
    | some v =>
      have h1 : getLanguageCodeJs s = .str v := by
        unfold getLanguageCodeJs
        rw [hl]
      rw [h1]
      show Except.ok (getLanguageCodeJs v) = Except.ok (JsValue.str v)
      have hv := langMap_values_lookup (jsToLower s, v) (lookup_mem hl)
      rw [show getLanguageCodeJs v = .str v from by
            unfold getLanguageCodeJs
            rw [hv]]
    | none =>
      have h1 : getLanguageCodeJs s = .str (jsToLower s) := by
        unfold getLanguageCodeJs
        rw [hl, if_neg h]
      rw [h1]
      show Except.ok (getLanguageCodeJs (jsToLower s)) =
        Except.ok (JsValue.str (jsToLower s))
      rw [show getLanguageCodeJs (jsToLower s) = .str (jsToLower s) from by
            unfold getLanguageCodeJs
            rw [jsToLower_idem, hl, if_neg h]]
  · intro h
    have hnone : langMap.lookup (jsToLower s) = none :=
      protoKeys_lookup_none (jsToLower s) h
    rw [show getLanguageCodeJs s = .protoMember (jsToLower s) from by
          unfold getLanguageCodeJs
          rw [hnone, if_pos h]]
    rfl

/-- Witness for `getLanguageCodeJs_idem`: its hypotheses discharged at one
input of each kind — `"Sinhala"` (idempotent) and `"constructor"` (throws
on the second application). -/
theorem getLanguageCodeJs_idem_witness :
    getLanguageCodeJsStep (getLanguageCodeJs "Sinhala") =
      .ok (getLanguageCodeJs "Sinhala") ∧
    getLanguageCodeJsStep (getLanguageCodeJs "constructor") =
      .error "TypeError: language.toLowerCase is not a function" :=
  ⟨(getLanguageCodeJs_idem "Sinhala").1 (by decide),
   (getLanguageCodeJs_idem "constructor").2 (by decide)⟩

/-- Claim C7: for every text whose length is at most `maxChunkSize`,
`splitTextIntoChunks` returns exactly the one-element list `[text]`. -/
theorem splitTextIntoChunks_short (text : String) (maxChunkSize : Nat)
    (h : text.length ≤ maxChunkSize) :
    splitTextIntoChunks text maxChunkSize = [text] := by
  unfold splitTextIntoChunks
  rw [if_pos h]

/-- Witness for `splitTextIntoChunks_short` at `text = "hello"`,
`maxChunkSize = 4000` (the JS default). -/
theorem splitTextIntoChunks_short_witness :
    ("hello" : String).length ≤ 4000 ∧ splitTextIntoChunks "hello" 4000 = ["hello"] :=
  ⟨by decide, splitTextIntoChunks_short "hello" 4000 (by decide)⟩

/-- Counterexample to claim C3: the code rejects the empty string with kind
`MISSING_TEXT`, not `EMPTY_TEXT` as claimed — the falsy check
`if (!text || typeof text !== 'string')` fires first on `""`.  -/
theorem validate_empty_counterexample :
    validateTranslationRequest (some "") "si" =
      some ⟨"Text is required for translation", "MISSING_TEXT", none⟩ ∧
    "MISSING_TEXT" ≠ "EMPTY_TEXT" := by decide

/-- Claim C3 as amended: `validateTranslationRequest` rejects non-string
values and the empty string with kind `MISSING_TEXT`, a non-empty
whitespace-only string with kind `EMPTY_TEXT`, and text whose raw
(untrimmed) length exceeds 5000 with kind `TEXT_TOO_LONG`, checking in that
fail-fast order; it accepts any text whose trimmed length is positive and
whose raw length is at most 5000 when a truthy target language is
supplied. -/
theorem validate_behaviour (t targetLang : String) :
    validateTranslationRequest none targetLang =
      some ⟨"Text is required for translation", "MISSING_TEXT", none⟩ ∧
    validateTranslationRequest (some "") targetLang =
      some ⟨"Text is required for translation", "MISSING_TEXT", none⟩ ∧
    (t ≠ "" → jsTrim t = "" →
      validateTranslationRequest (some t) targetLang =
        some ⟨"Text cannot be empty", "EMPTY_TEXT", none⟩) ∧
    (jsTrim t ≠ "" → 5000 < t.length →
      validateTranslationRequest (some t) targetLang =
        some ⟨"Text too long. Maximum 5000 characters allowed", "TEXT_TOO_LONG", none⟩) ∧
    (jsTrim t ≠ "" → t.length ≤ 5000 → targetLang ≠ "" →
      validateTranslationRequest (some t) targetLang = none) := by
  have hne : jsTrim t ≠ "" → t ≠ "" := by
    intro h he
    subst he
    exact h rfl
  refine ⟨rfl, by simp [validateTranslationRequest], ?_, ?_, ?_⟩
  · intro h1 h2
    simp only [validateTranslationRequest]
    rw [if_neg h1, if_pos h2]
  · intro h2 h3
    simp only [validateTranslationRequest]
    rw [if_neg (hne h2), if_neg h2, if_pos h3]
  · intro h2 h3 h4
    simp only [validateTranslationRequest]
    rw [if_neg (hne h2), if_neg h2, if_neg (by omega : ¬ 5000 < t.length), if_neg h4]

/-- Witness for `validate_behaviour`: a whitespace-only string is rejected as
`EMPTY_TEXT`, and a short non-blank string with a target language passes. -/
theorem validate_behaviour_witness :
    validateTranslationRequest (some " ") "si" =
      some ⟨"Text cannot be empty", "EMPTY_TEXT", none⟩ ∧
    validateTranslationRequest (some "hi") "si" = none :=
  ⟨(validate_behaviour " " "si").2.2.1 (by decide) (by decide),
   (validate_behaviour "hi" "si").2.2.2.2 (by decide) (by decide) (by decide)⟩

/-- Trace of a `withRetry` loop in which every attempt up to `maxRetries`
fails with a retryable error: starting at iteration `attempt = a` (with the
`remaining` counter consistent with the loop bound), the loop performs the
remaining `maxRetries + 1 - a` invocations, schedules the backoff delays
`delay * 2 ^ (a - 1), delay * 2 ^ a, ...` after all but the last of them, and
re-raises the error of the final attempt. -/
theorem withRetryGo_allFail {α : Type} (op : Nat → Except LyricsApiError α) (m d : Nat)
    (hfail : ∀ k, 1 ≤ k → k ≤ m → ∃ e, op k = .error e ∧ nonRetryable e = false)
    (em : LyricsApiError) (hm : op m = .error em) :
    ∀ rem a le, rem = m + 1 - a → 1 ≤ a → a ≤ m →
      withRetryGo op m d rem a le =
        ⟨.error (some em), m + 1 - a,
         (List.range (m - a)).map (fun i => d * 2 ^ (a - 1 + i))⟩ := by
  intro rem
  induction rem with
  | zero =>
    intro a le hrem h1 hle
    omega
  | succ n ih =>
    intro a le hrem h1 hle
    obtain ⟨e, he, hnr⟩ := hfail a h1 hle
    by_cases ha : a = m
    · have hem : e = em := by
        have h' : op m = Except.error e := ha ▸ he
        exact Except.error.inj (h'.symm.trans hm)
      simp only [withRetryGo, he]
      rw [if_neg (by simp [hnr]), if_pos ha, hem]
      subst ha
      rw [show a + 1 - a = 1 from by omega, show a - a = 0 from by omega]
      rfl
    · simp only [withRetryGo, he]
      rw [if_neg (by simp [hnr]), if_neg ha]
      rw [ih (a + 1) (some e) (by omega) (by omega) (by omega)]
      have hdelays :
          (List.range (m - a)).map (fun i => d * 2 ^ (a - 1 + i)) =
            d * 2 ^ (a - 1) ::
              (List.range (m - (a + 1))).map (fun i => d * 2 ^ (a + 1 - 1 + i)) := by
        have hma : m - a = (m - (a + 1)) + 1 := by omega
        rw [hma, List.range_succ_eq_map, List.map_cons, List.map_map]
        refine congrArg₂ List.cons (by norm_num) ?_
        refine List.map_congr_left (fun i _ => ?_)
        show d * 2 ^ (a - 1 + (i + 1)) = d * 2 ^ (a + 1 - 1 + i)
        rw [show a - 1 + (i + 1) = a + 1 - 1 + i from by omega]
      show (⟨Except.error (some em), m + 1 - (a + 1) + 1,
             d * 2 ^ (a - 1) ::
               (List.range (m - (a + 1))).map (fun i => d * 2 ^ (a + 1 - 1 + i))⟩ : RetryRun α) =
           ⟨Except.error (some em), m + 1 - a,
             (List.range (m - a)).map (fun i => d * 2 ^ (a - 1 + i))⟩
      rw [show m + 1 - (a + 1) + 1 = m + 1 - a from by omega, hdelays]

/-- Counterexample to claim C4: with an operation that always fails with
`NETWORK_ERROR`, `maxRetries = 3` and `initialDelay = 1000`, the delay
scheduled before attempt 2 is the first element of the delay trace, 1000 —
but the claim's formula `initialDelay * 2 ^ (k - 1)` demands
`1000 * 2 ^ (2 - 1) = 2000`.  The code computes `delay * 2 ^ (attempt - 1)`
after failing attempt `attempt`, i.e. `initialDelay * 2 ^ (k - 2)` before
attempt `k`. -/
theorem withRetry_delay_counterexample :
    (withRetry opNetworkFail 3 1000).delays = [1000, 2000] ∧
    1000 * 2 ^ (2 - 1) ≠ 1000 := by decide

/-- Claim C4 as amended: when every invocation fails with a retryable kind,
the delays scheduled between the `maxRetries` attempts are
`initialDelay * 2 ^ 0, initialDelay * 2 ^ 1, ...` — i.e. the delay before
attempt `k` (for `k` from 2 to `maxRetries`) is `initialDelay * 2 ^ (k - 2)`,
pure exponential backoff with no jitter. -/
theorem withRetry_delays {α : Type} (op : Nat → Except LyricsApiError α) (m d : Nat)
    (h1 : 1 ≤ m)
    (hfail : ∀ k, 1 ≤ k → k ≤ m → ∃ e, op k = .error e ∧ nonRetryable e = false) :
    (withRetry op m d).delays = (List.range (m - 1)).map (fun i => d * 2 ^ i) := by
  obtain ⟨em, hm, -⟩ := hfail m h1 (Nat.le_refl m)
  unfold withRetry
  rw [withRetryGo_allFail op m d hfail em hm m 1 none (by omega) (by omega) h1]
  show (List.range (m - 1)).map (fun i => d * 2 ^ (1 - 1 + i)) =
       (List.range (m - 1)).map (fun i => d * 2 ^ i)
  exact List.map_congr_left (fun i _ => by norm_num)

/-- Witness for `withRetry_delays` at the JS defaults `maxRetries = 3`,
`initialDelay = 1000` and an operation always failing with
`NETWORK_ERROR`. -/
theorem withRetry_delays_witness :
    (withRetry opNetworkFail 3 1000).delays = [1000, 2000] := by
  rw [withRetry_delays opNetworkFail 3 1000 (by decide)
        (fun k h1 h2 => ⟨_, rfl, by decide⟩)]
  decide

/-- Claim C5: when every invocation fails with a retryable kind, the
operation is invoked exactly `maxRetries` times — never more — and
`withRetry` re-raises the failure observed on the last attempt (the very
error value, hence same kind, message and status code). -/
theorem withRetry_exhausts {α : Type} (op : Nat → Except LyricsApiError α) (m d : Nat)
    (h1 : 1 ≤ m)
    (hfail : ∀ k, 1 ≤ k → k ≤ m → ∃ e, op k = .error e ∧ nonRetryable e = false)
    (em : LyricsApiError) (hm : op m = .error em) :
    (withRetry op m d).calls = m ∧ (withRetry op m d).outcome = .error (some em) := by
  unfold withRetry
  rw [withRetryGo_allFail op m d hfail em hm m 1 none (by omega) (by omega) h1]
  refine ⟨?_, rfl⟩
  show m + 1 - 1 = m
  omega

/-- Witness for `withRetry_exhausts`: three calls, and the `NETWORK_ERROR`
of the third attempt is re-raised. -/
theorem withRetry_exhausts_witness :
    (withRetry opNetworkFail 3 1000).calls = 3 ∧
    (withRetry opNetworkFail 3 1000).outcome =
      .error (some ⟨"Network error. Please check your connection", "NETWORK_ERROR", none⟩) :=
  withRetry_exhausts opNetworkFail 3 1000 (by decide)
    (fun k h1 h2 => ⟨_, rfl, by decide⟩) _ rfl

/-- Claim C6: when the first invocation fails with a kind in the
non-retryable set (`INVALID_URL`, `VIDEO_NOT_FOUND` or `NO_LYRICS_FOUND`),
the operation is invoked exactly once, no delay is scheduled, and that same
failure is re-raised, for any `maxRetries ≥ 1`. -/
theorem withRetry_nonRetryable {α : Type} (op : Nat → Except LyricsApiError α)
    (m d : Nat) (h1 : 1 ≤ m) (e : LyricsApiError)
    (he : op 1 = .error e) (hnr : nonRetryable e = true) :
    withRetry op m d = ⟨.error (some e), 1, []⟩ := by
  unfold withRetry
  obtain ⟨m', rfl⟩ : ∃ m', m = m' + 1 := ⟨m - 1, by omega⟩
  simp only [withRetryGo, he]
  rw [if_pos hnr]

/-- Witness for `withRetry_nonRetryable`: a `NO_LYRICS_FOUND` failure is
re-raised after a single call even with `maxRetries = 5`. -/
theorem withRetry_nonRetryable_witness :
    withRetry opNoLyrics 5 1000 =
      ⟨.error (some ⟨"No lyrics found in this video. Try a video with clear vocals or captions", "NO_LYRICS_FOUND", none⟩), 1, []⟩ :=
  withRetry_nonRetryable opNoLyrics 5 1000 (by decide) _ rfl (by decide)

/-- If both providers fail on some chunk of the list, the per-chunk loop of
the orchestrator aborts with the `ALL_SERVICES_FAILED` error, whatever state
it starts in: the loop reaches the first such chunk (earlier chunks are
translated by one of the providers) and throws there, discarding the
translations accumulated so far. -/
theorem translateChunks_allFail
    (google libre : String → Except TranslationError ProviderSuccess)
    (c : String) (hg : ∃ e, google c = .error e) (hl : ∃ e, libre c = .error e) :
    ∀ chunks detectedLang usedProvider, c ∈ chunks →
      translateChunks google libre chunks detectedLang usedProvider =
        .error allServicesFailedErr := by
  intro chunks
  induction chunks with
  | nil =>
    intro dl up h
    exact absurd h (List.not_mem_nil c)
  | cons c0 rest ih =>
    intro dl up h
    simp only [translateChunks]
    cases hg0 : google c0 with
    | ok r =>
      have hc : c ∈ rest := by
        rcases List.mem_cons.mp h with h1 | h1
        · obtain ⟨e, he⟩ := hg
          rw [h1, hg0] at he
          cases he
        · exact h1
      simp [ih (updDetected dl r) (some "google") hc]
    | error e0 =>
      cases hl0 : libre c0 with
      | ok r =>
        have hc : c ∈ rest := by
          rcases List.mem_cons.mp h with h1 | h1
          · obtain ⟨e, he⟩ := hl
            rw [h1, hl0] at he
            cases he
          · exact h1
        simp [ih (updDetected dl r) (some "libretranslate") hc]
      | error e1 => rfl

/-- Claim C1: `translate` is total (it is a Lean function into the
`TranslationResult` envelope — the JS contract "never throws"), and whenever
both configured providers (Google, then LibreTranslate) fail on some chunk of
a validated request, it returns the failure envelope with error kind
`ALL_SERVICES_FAILED`; the translations of earlier chunks are not present in
the returned value, which is exactly the constant failure envelope. -/
theorem translate_allServicesFailed
    (google libre : String → Except TranslationError ProviderSuccess)
    (text : Option String) (targetLanguage sourceLanguage : String) (c : String)
    (hv : validateTranslationRequest text targetLanguage = none)
    (hc : c ∈ splitTextIntoChunks (text.getD "") 4000)
    (hg : ∃ e, google c = .error e) (hl : ∃ e, libre c = .error e) :
    TranslateApi.translate google libre text targetLanguage sourceLanguage =
      .fail ⟨"All translation services are currently unavailable", "ALL_SERVICES_FAILED", none⟩ := by
  simp only [TranslateApi.translate, hv]
  rw [translateChunks_allFail google libre c hg hl _ _ _ hc]
  rfl

/-- Witness for `translate_allServicesFailed`: a valid single-chunk request
with both providers down yields the `ALL_SERVICES_FAILED` envelope. -/
theorem translate_allServicesFailed_witness :
    validateTranslationRequest (some "hello") "si" = none ∧
    "hello" ∈ splitTextIntoChunks ((some "hello" : Option String).getD "") 4000 ∧
    TranslateApi.translate provFail provFail (some "hello") "si" "auto" =
      .fail ⟨"All translation services are currently unavailable", "ALL_SERVICES_FAILED", none⟩ :=
  ⟨by decide, by decide,
   translate_allServicesFailed provFail provFail (some "hello") "si" "auto" "hello"
     (by decide) (by decide) ⟨_, rfl⟩ ⟨_, rfl⟩⟩

/-- Claim C8: for a valid single-chunk request where Google fails with kind
`RATE_LIMITED` and LibreTranslate succeeds, `translate` returns a success
envelope whose `provider` is `"libretranslate"`; the success variant carries
only the `data` record (original text, translation, languages, provider,
chunk count) — no field of the failed Google attempt appears in the returned
value. -/
theorem translate_fallback
    (google libre : String → Except TranslationError ProviderSuccess)
    (t targetLanguage sourceLanguage : String) (e : TranslationError) (r : ProviderSuccess)
    (hv : validateTranslationRequest (some t) targetLanguage = none)
    (hch : splitTextIntoChunks t 4000 = [t])
    (hg : google t = .error e) (hrl : e.type = "RATE_LIMITED")
    (hl : libre t = .ok r) :
    TranslateApi.translate google libre (some t) targetLanguage sourceLanguage =
      .ok ⟨t, r.translatedText, updDetected sourceLanguage r,
           getLanguageCode targetLanguage, some "libretranslate", 1⟩ := by
  simp only [TranslateApi.translate, hv]
  rw [show (some t).getD "" = t from rfl, hch]
  simp only [translateChunks, hg, hl]
  rfl

/-- Witness for `translate_fallback`: Google rate-limited, LibreTranslate
succeeding with `"hola"`. -/
theorem translate_fallback_witness :
    TranslateApi.translate provRateLimited provOk (some "hello") "si" "auto" =
      .ok ⟨"hello", "hola", updDetected "auto" ⟨"hola", "en", "libretranslate"⟩,
           getLanguageCode "si", some "libretranslate", 1⟩ :=
  translate_fallback provRateLimited provOk "hello" "si" "auto" _ _
    (by decide) (by decide) rfl rfl rfl

/-- Counterexample to claim C9: the extraction request helper maps the 5xx
status 502 to `HTTP_ERROR`, not `SERVER_ERROR` (only exactly 500 maps to
`SERVER_ERROR`), and the Google client maps 429 to `GOOGLE_API_ERROR`, not
`RATE_LIMITED` (it special-cases only 403). -/
theorem statusMapping_counterexample :
    makeRequestClassify ⟨false, 502, none⟩ =
      some ⟨"HTTP 502", "HTTP_ERROR", some 502⟩ ∧
    500 ≤ 502 ∧ 502 ≤ 599 ∧ "HTTP_ERROR" ≠ "SERVER_ERROR" ∧
    exceptErrType (translateWithGoogleResp true "auto" ⟨false, 429, none, none, none⟩) =
      some "GOOGLE_API_ERROR" ∧ "GOOGLE_API_ERROR" ≠ "RATE_LIMITED" := by decide

/-- Claim C9 as amended: the actual status-to-kind tables.  The Google client
maps 403 to `QUOTA_EXCEEDED` and every other non-ok status to
`GOOGLE_API_ERROR`; the LibreTranslate client maps 429 to `RATE_LIMITED` and
every other non-ok status to `LIBRE_API_ERROR`; the extraction request helper
maps 400 to `INVALID_REQUEST`, 404 to `VIDEO_NOT_FOUND`, 429 to
`RATE_LIMITED`, exactly 500 to `SERVER_ERROR`, and every other non-ok status
(including 5xx other than 500) to `HTTP_ERROR`. -/
theorem statusMapping
    (gresp : GoogleResp) (lresp : LibreResp) (bresp : BackendResp) (src : String) :
    (gresp.ok = false →
      exceptErrType (translateWithGoogleResp true src gresp) =
        some (if gresp.status = 403 then "QUOTA_EXCEEDED" else "GOOGLE_API_ERROR")) ∧
    (lresp.ok = false →
      exceptErrType (translateWithLibreResp src lresp) =
        some (if lresp.status = 429 then "RATE_LIMITED" else "LIBRE_API_ERROR")) ∧
    (bresp.ok = false →
      (makeRequestClassify bresp).map LyricsApiError.type =
        some (if bresp.status = 400 then "INVALID_REQUEST"
              else if bresp.status = 404 then "VIDEO_NOT_FOUND"
              else if bresp.status = 429 then "RATE_LIMITED"
              else if bresp.status = 500 then "SERVER_ERROR"
              else "HTTP_ERROR")) := by
  refine ⟨?_, ?_, ?_⟩
  · intro hok
    by_cases h403 : gresp.status = 403 <;>
      simp [translateWithGoogleResp, exceptErrType, hok, h403]
  · intro hok
    by_cases h429 : lresp.status = 429 <;>
      simp [translateWithLibreResp, exceptErrType, hok, h429]
  · intro hok
    by_cases h400 : bresp.status = 400
    · simp [makeRequestClassify, hok, h400]
    by_cases h404 : bresp.status = 404
    · simp [makeRequestClassify, hok, h400, h404]
    by_cases h429 : bresp.status = 429
    · simp [makeRequestClassify, hok, h400, h404, h429]
    by_cases h500 : bresp.status = 500
    · simp [makeRequestClassify, hok, h400, h404, h429, h500]
    simp [makeRequestClassify, hok, h400, h404, h429, h500]

/-- Witness for `statusMapping` at one concrete non-ok response per client:
Google 403, LibreTranslate 429, extraction 404. -/
theorem statusMapping_witness :
    exceptErrType (translateWithGoogleResp true "auto" ⟨false, 403, none, none, none⟩) =
      some "QUOTA_EXCEEDED" ∧
    exceptErrType (translateWithLibreResp "auto" ⟨false, 429, none, none, none⟩) =
      some "RATE_LIMITED" ∧
    (makeRequestClassify ⟨false, 404, none⟩).map LyricsApiError.type =
      some "VIDEO_NOT_FOUND" := by
  have h := statusMapping ⟨false, 403, none, none, none⟩ ⟨false, 429, none, none, none⟩
    ⟨false, 404, none⟩ "auto"
  exact ⟨by simpa using h.1 rfl, by simpa using h.2.1 rfl, by simpa using h.2.2 rfl⟩

/-- Splitting at a whitespace character separates the word lists: scanning
`a ++ c :: b` from any current-word state equals scanning `a` (closing its
last word) followed by the words of `b`. -/
theorem wordsOfGo_append_ws {c : Char} (hc : jsIsWs c = true) :
    ∀ (a cur b : List Char),
      wordsOfGo (a ++ c :: b) cur = wordsOfGo a cur ++ wordsOfGo b [] := by
  intro a
  induction a with
  | nil =>
    intro cur b
    cases hcur : cur.isEmpty <;> simp [wordsOfGo, hc, hcur]
  | cons d a ih =>
    intro cur b
    cases hd : jsIsWs d <;> cases hcur : cur.isEmpty <;>
      simp [wordsOfGo, hd, hcur, hc, ih]

/-- `wordsOf` splits across any whitespace character. -/
theorem wordsOf_append_ws {c : Char} (hc : jsIsWs c = true) (a b : List Char) :
    wordsOf (a ++ c :: b) = wordsOf a ++ wordsOf b :=
  wordsOfGo_append_ws hc a [] b

/-- The sentence scanner preserves the words of the text: in building state
the pending sentence prefix is accounted for, in separator-skipping state
nothing is pending. -/
theorem sentencesGo_words :
    ∀ (l acc : List Char),
      ((sentencesGo l (some acc)).flatMap wordsOf = wordsOf (acc.reverse ++ l)) ∧
      ((sentencesGo l none).flatMap wordsOf = wordsOf l) := by
  intro l
  induction l with
  | nil =>
    intro acc
    constructor
    · simp [sentencesGo, wordsOf]
    · simp [sentencesGo, wordsOf, wordsOfGo]
  | cons ch rest ih =>
    intro acc
    constructor
    · cases hb : sentenceBreakHere acc ch with
      | true =>
        have hws : jsIsWs ch = true := by
          unfold sentenceBreakHere at hb
          cases acc with
          | nil => cases hb
          | cons p ps =>
            simp at hb
            exact hb.2
        rw [wordsOf_append_ws hws]
        simp [sentencesGo, hb, (ih acc).2, ih]
      | false =>
        simp only [sentencesGo, hb, Bool.false_eq_true, if_false]
        rw [(ih (ch :: acc)).1]
        simp [List.reverse_cons, List.append_assoc]
    · cases hw : jsIsWs ch with
      | true =>
        simp only [sentencesGo, hw, if_true]
        rw [(ih []).2]
        simp [wordsOf, wordsOfGo, hw]
      | false =>
        simp only [sentencesGo, hw, Bool.false_eq_true, if_false]
        rw [(ih [ch]).1]
        rfl

/-- The sentence split preserves the words of the text. -/
theorem splitSentences_words (l : List Char) :
    (splitSentences l).flatMap wordsOf = wordsOf l := by
  have h := (sentencesGo_words l []).1
  simpa [splitSentences] using h

/-- The single-space split preserves the words of a sentence. -/
theorem splitSpaceAux_words :
    ∀ (l acc : List Char),
      (splitSpaceAux l acc).flatMap wordsOf = wordsOf (acc.reverse ++ l) := by
  intro l
  induction l with
  | nil => intro acc; simp [splitSpaceAux]
  | cons ch rest ih =>
    intro acc
    by_cases hch : ch = ' '
    · subst hch
      rw [wordsOf_append_ws (by decide) acc.reverse rest]
      simp [splitSpaceAux, ih]
    · simp only [splitSpaceAux, hch, if_false]
      rw [ih (ch :: acc)]
      simp [List.reverse_cons, List.append_assoc]

/-- `splitSpace` preserves the words of a sentence. -/
theorem splitSpace_words (l : List Char) :
    (splitSpace l).flatMap wordsOf = wordsOf l := by
  simpa [splitSpace] using splitSpaceAux_words l []

/-- Joining with single spaces preserves the concatenated word lists. -/
theorem joinSp_words :
    ∀ ls : List (List Char), wordsOf (joinSp ls) = ls.flatMap wordsOf := by
  intro ls
  induction ls with
  | nil => simp [joinSp, wordsOf, wordsOfGo]
  | cons x xs ih =>
    cases xs with
    | nil => simp [joinSp]
    | cons y ys =>
      rw [show joinSp (x :: y :: ys) = x ++ ' ' :: joinSp (y :: ys) from rfl,
          wordsOf_append_ws (by decide), ih]
      simp

/-- The accumulation step `chunk + (chunk ? ' ' : '') + piece` preserves
words. -/
theorem joinStep_words (cur s : List Char) :
    wordsOf (joinStep cur s) = wordsOf cur ++ wordsOf s := by
  cases hcur : cur.isEmpty with
  | true =>
    have hnil : cur = [] := by
      cases cur with
      | nil => rfl
      | cons a b => simp at hcur
    subst hnil
    simp [joinStep, wordsOf, wordsOfGo]
  | false =>
    rw [show joinStep cur s = cur ++ ' ' :: s from by simp [joinStep, hcur]]
    exact wordsOf_append_ws (by decide) cur s

/-- The word loop neither loses nor reorders words: the words of the pushed
chunks followed by the words of the final `wordChunk` are the initial
`wordChunk`'s words followed by the processed words. -/
theorem wordLoop_words (max : Nat) :
    ∀ (ws : List (List Char)) (wc : List Char),
      (wordLoop max ws wc).1.flatMap wordsOf ++ wordsOf (wordLoop max ws wc).2 =
        wordsOf wc ++ ws.flatMap wordsOf := by
  intro ws
  induction ws with
  | nil => intro wc; simp [wordLoop]
  | cons w rest ih =>
    intro wc
    by_cases hfit : wc.length + w.length ≤ max
    · rw [show wordLoop max (w :: rest) wc = wordLoop max rest (joinStep wc w) from by
            simp [wordLoop, hfit]]
      rw [ih (joinStep wc w), joinStep_words, List.append_assoc]
      simp
    · cases hwc : wc.isEmpty with
      | true =>
        have hnil : wc = [] := by
          cases wc with
          | nil => rfl
          | cons a b => simp at hwc
        subst hnil
        rw [show wordLoop max (w :: rest) [] = wordLoop max rest w from by
              rw [wordLoop, if_neg hfit]
              simp]
        rw [ih w]
        simp [wordsOf, wordsOfGo]
      | false =>
        rw [show wordLoop max (w :: rest) wc =
              (wc :: (wordLoop max rest w).1, (wordLoop max rest w).2) from by
              simp [wordLoop, hfit, hwc]]
        rw [List.flatMap_cons, List.append_assoc, ih w, List.flatMap_cons]

/-- The sentence loop neither loses nor reorders words. -/
theorem sentenceLoop_words (max : Nat) :
    ∀ (ss : List (List Char)) (cur : List Char),
      (sentenceLoop max ss cur).1.flatMap wordsOf ++ wordsOf (sentenceLoop max ss cur).2 =
        wordsOf cur ++ ss.flatMap wordsOf := by
  intro ss
  induction ss with
  | nil => intro cur; simp [sentenceLoop]
  | cons s rest ih =>
    intro cur
    by_cases hfit : cur.length + s.length ≤ max
    · rw [show sentenceLoop max (s :: rest) cur = sentenceLoop max rest (joinStep cur s) from by
            simp [sentenceLoop, hfit]]
      rw [ih (joinStep cur s), joinStep_words, List.append_assoc]
      simp
    · cases hcur : cur.isEmpty with
      | false =>
        rw [show sentenceLoop max (s :: rest) cur =
              (cur :: (sentenceLoop max rest s).1, (sentenceLoop max rest s).2) from by
              simp [sentenceLoop, hfit, hcur]]
        rw [List.flatMap_cons, List.append_assoc, ih s, List.flatMap_cons]
      | true =>
        have hnil : cur = [] := by
          cases cur with
          | nil => rfl
          | cons a b => simp at hcur
        subst hnil
        rw [show sentenceLoop max (s :: rest) [] =
              ((wordLoop max (splitSpace s) []).1 ++
                 (sentenceLoop max rest (wordLoop max (splitSpace s) []).2).1,
               (sentenceLoop max rest (wordLoop max (splitSpace s) []).2).2) from by
              rw [sentenceLoop, if_neg hfit]
              simp]
        rw [List.flatMap_append, List.append_assoc,
            ih (wordLoop max (splitSpace s) []).2, ← List.append_assoc,
            wordLoop_words max (splitSpace s) [], splitSpace_words]
        simp [wordsOf, wordsOfGo]

/-- The empty text has no words. -/
theorem wordsOf_nil : wordsOf [] = [] := rfl

/-- Joining the chunks produced by `splitTextIntoChunks` with single spaces
reproduces the original text's words in original order. -/
theorem splitTextIntoChunks_words (text : String) (max : Nat) :
    wordsOf (joinSp ((splitTextIntoChunks text max).map String.toList)) =
      wordsOf text.toList := by
  unfold splitTextIntoChunks
  by_cases h : text.length ≤ max
  · rw [if_pos h]
    simp [joinSp]
  · rw [if_neg h]
    have hmapmk : ∀ ls : List (List Char), (ls.map String.mk).map String.toList = ls := by
      intro ls
      rw [List.map_map]
      rw [show (String.toList ∘ String.mk) = id from rfl, List.map_id]
    have hinv := sentenceLoop_words max (splitSentences text.toList) []
    show wordsOf (joinSp (((if (sentenceLoop max (splitSentences text.toList) []).2.isEmpty
          then (sentenceLoop max (splitSentences text.toList) []).1
          else (sentenceLoop max (splitSentences text.toList) []).1 ++
            [(sentenceLoop max (splitSentences text.toList) []).2]).map String.mk).map
              String.toList)) =
      wordsOf text.toList
    cases hre : (sentenceLoop max (splitSentences text.toList) []).2.isEmpty with
    | true =>
      have hr2 : (sentenceLoop max (splitSentences text.toList) []).2 = [] := by
        cases hx : (sentenceLoop max (splitSentences text.toList) []).2 with
        | nil => rfl
        | cons a b => rw [hx] at hre; simp at hre
      simp only [hre, if_true]
      rw [hmapmk, joinSp_words]
      rw [hr2] at hinv
      rw [wordsOf_nil, List.append_nil, List.nil_append] at hinv
      rw [hinv, splitSentences_words]
    | false =>
      simp only [hre, Bool.false_eq_true, if_false]
      rw [hmapmk, joinSp_words, List.flatMap_append]
      simp only [List.flatMap_cons, List.flatMap_nil, List.append_nil]
      rw [wordsOf_nil, List.nil_append] at hinv
      rw [hinv, splitSentences_words]

/-- Length of the accumulation step: at most one joining space is added. -/
theorem joinStep_length (cur s : List Char) :
    (joinStep cur s).length ≤ cur.length + s.length + 1 := by
  unfold joinStep
  cases hcur : cur.isEmpty <;> simp [List.length_append] <;> omega

/-- Bound invariant of the word loop: provided every processed word belongs
to `W` and the incoming `wordChunk` is within `maxChunkSize + 1` or is a
single word of `W`, every pushed chunk and the final `wordChunk` are within
`maxChunkSize + 1` or are single words of `W`.  (The `+ 1` is forced by the
greedy length check, which ignores the joining space.) -/
theorem wordLoop_bound (max : Nat) (W : List (List Char)) :
    ∀ (ws : List (List Char)) (wc : List Char),
      (∀ w ∈ ws, w ∈ W) →
      (wc.length ≤ max + 1 ∨ wc ∈ W) →
      ((∀ ch ∈ (wordLoop max ws wc).1, ch.length ≤ max + 1 ∨ ch ∈ W) ∧
       ((wordLoop max ws wc).2.length ≤ max + 1 ∨ (wordLoop max ws wc).2 ∈ W)) := by
  intro ws
  induction ws with
  | nil =>
    intro wc hws hwc
    refine ⟨?_, by simpa [wordLoop] using hwc⟩
    intro ch hch
    simp [wordLoop] at hch
  | cons w rest ih =>
    intro wc hws hwc
    by_cases hfit : wc.length + w.length ≤ max
    · rw [show wordLoop max (w :: rest) wc = wordLoop max rest (joinStep wc w) from by
            simp [wordLoop, hfit]]
      refine ih (joinStep wc w) (fun x hx => hws x (List.mem_cons_of_mem _ hx)) (Or.inl ?_)
      calc (joinStep wc w).length ≤ wc.length + w.length + 1 := joinStep_length wc w
        _ ≤ max + 1 := by omega
    · cases hwcE : wc.isEmpty with
      | true =>
        have hnil : wc = [] := by
          cases wc with
          | nil => rfl
          | cons a b => simp at hwcE
        subst hnil
        rw [show wordLoop max (w :: rest) [] = wordLoop max rest w from by
              rw [wordLoop, if_neg hfit]
              simp]
        exact ih w (fun x hx => hws x (List.mem_cons_of_mem _ hx))
          (Or.inr (hws w (List.mem_cons_self _ _)))
      | false =>
        rw [show wordLoop max (w :: rest) wc =
              (wc :: (wordLoop max rest w).1, (wordLoop max rest w).2) from by
              simp [wordLoop, hfit, hwcE]]
        have hrec := ih w (fun x hx => hws x (List.mem_cons_of_mem _ hx))
          (Or.inr (hws w (List.mem_cons_self _ _)))
        refine ⟨?_, hrec.2⟩
        intro ch hch
        rcases List.mem_cons.mp hch with h1 | h1
        · subst h1
          exact hwc
        · exact hrec.1 ch h1

/-- Bound invariant of the sentence loop: every pushed chunk and the final
`currentChunk` are within `maxChunkSize + 1`, or are a single sentence of
`S`, or a single word of a sentence of `S`. -/
theorem sentenceLoop_bound (max : Nat) (S : List (List Char)) :
    ∀ (ss : List (List Char)) (cur : List Char),
      (∀ s ∈ ss, s ∈ S) →
      (cur.length ≤ max + 1 ∨ cur ∈ S ∨ ∃ s ∈ S, cur ∈ splitSpace s) →
      ((∀ ch ∈ (sentenceLoop max ss cur).1,
          ch.length ≤ max + 1 ∨ ch ∈ S ∨ ∃ s ∈ S, ch ∈ splitSpace s) ∧
       ((sentenceLoop max ss cur).2.length ≤ max + 1 ∨
          (sentenceLoop max ss cur).2 ∈ S ∨
          ∃ s ∈ S, (sentenceLoop max ss cur).2 ∈ splitSpace s)) := by
  intro ss
  induction ss with
  | nil =>
    intro cur hss hcur
    refine ⟨?_, by simpa [sentenceLoop] using hcur⟩
    intro ch hch
    simp [sentenceLoop] at hch
  | cons s rest ih =>
    intro cur hss hcur
    by_cases hfit : cur.length + s.length ≤ max
    · rw [show sentenceLoop max (s :: rest) cur = sentenceLoop max rest (joinStep cur s) from by
            simp [sentenceLoop, hfit]]
      refine ih (joinStep cur s) (fun x hx => hss x (List.mem_cons_of_mem _ hx)) (Or.inl ?_)
      calc (joinStep cur s).length ≤ cur.length + s.length + 1 := joinStep_length cur s
        _ ≤ max + 1 := by omega
    · cases hcurE : cur.isEmpty with
      | false =>
        rw [show sentenceLoop max (s :: rest) cur =
              (cur :: (sentenceLoop max rest s).1, (sentenceLoop max rest s).2) from by
              simp [sentenceLoop, hfit, hcurE]]
        have hrec := ih s (fun x hx => hss x (List.mem_cons_of_mem _ hx))
          (Or.inr (Or.inl (hss s (List.mem_cons_self _ _))))
        refine ⟨?_, hrec.2⟩
        intro ch hch
        rcases List.mem_cons.mp hch with h1 | h1
        · subst h1
          exact hcur
        · exact hrec.1 ch h1
      | true =>
        have hnil : cur = [] := by
          cases cur with
          | nil => rfl
          | cons a b => simp at hcurE
        subst hnil
        rw [show sentenceLoop max (s :: rest) [] =
              ((wordLoop max (splitSpace s) []).1 ++
                 (sentenceLoop max rest (wordLoop max (splitSpace s) []).2).1,
               (sentenceLoop max rest (wordLoop max (splitSpace s) []).2).2) from by
              rw [sentenceLoop, if_neg hfit]
              simp]
        have hsS : s ∈ S := hss s (List.mem_cons_self _ _)
        have hword := wordLoop_bound max (splitSpace s) (splitSpace s) []
          (fun x hx => hx) (Or.inl (by simp))
        have hlift : ∀ x : List Char,
            (x.length ≤ max + 1 ∨ x ∈ splitSpace s) →
            (x.length ≤ max + 1 ∨ x ∈ S ∨ ∃ u ∈ S, x ∈ splitSpace u) := by
          intro x hx
          rcases hx with h1 | h1
          · exact Or.inl h1
          · exact Or.inr (Or.inr ⟨s, hsS, h1⟩)
        have hrec := ih (wordLoop max (splitSpace s) []).2
          (fun x hx => hss x (List.mem_cons_of_mem _ hx))
          (hlift _ hword.2)
        refine ⟨?_, hrec.2⟩
        intro ch hch
        rcases List.mem_append.mp hch with h1 | h1
        · exact hlift ch (hword.1 ch h1)
        · exact hrec.1 ch h1

/-- Every chunk returned by `splitTextIntoChunks` has length at most
`maxChunkSize + 1`, or is a single sentence of the text, or a single word of
one of its sentences. -/
theorem splitTextIntoChunks_bound (text : String) (max : Nat) :
    ∀ chunk ∈ splitTextIntoChunks text max,
      chunk.length ≤ max + 1 ∨ chunk.toList ∈ splitSentences text.toList ∨
        ∃ s ∈ splitSentences text.toList, chunk.toList ∈ splitSpace s := by
  intro chunk hchunk
  unfold splitTextIntoChunks at hchunk
  by_cases h : text.length ≤ max
  · rw [if_pos h] at hchunk
    rcases List.mem_singleton.mp hchunk with rfl
    exact Or.inl (by omega)
  · rw [if_neg h] at hchunk
    have hmem : chunk.toList ∈
        (if (sentenceLoop max (splitSentences text.toList) []).2.isEmpty
          then (sentenceLoop max (splitSentences text.toList) []).1
          else (sentenceLoop max (splitSentences text.toList) []).1 ++
            [(sentenceLoop max (splitSentences text.toList) []).2]) := by
      have hchunk' : chunk ∈
          (if (sentenceLoop max (splitSentences text.toList) []).2.isEmpty
            then (sentenceLoop max (splitSentences text.toList) []).1
            else (sentenceLoop max (splitSentences text.toList) []).1 ++
              [(sentenceLoop max (splitSentences text.toList) []).2]).map String.mk :=
        hchunk
      rcases List.mem_map.mp hchunk' with ⟨l, hl, rfl⟩
      exact hl
    have hbound := sentenceLoop_bound max (splitSentences text.toList)
      (splitSentences text.toList) [] (fun x hx => hx) (Or.inl (by simp))
    have hlen : chunk.length = chunk.toList.length := rfl
    rw [hlen]
    cases hre : (sentenceLoop max (splitSentences text.toList) []).2.isEmpty with
    | true =>
      rw [hre] at hmem
      simp only [if_true] at hmem
      exact hbound.1 chunk.toList hmem
    | false =>
      rw [hre] at hmem
      simp only [Bool.false_eq_true, if_false] at hmem
      rcases List.mem_append.mp hmem with h1 | h1
      · exact hbound.1 chunk.toList h1
      · rcases List.mem_singleton.mp h1 with heq
        rw [heq]
        exact hbound.2

/-- Counterexample to claim C2: with chunk size limit 5, the text
`"a. bc. d."` is split into `["a. bc.", "d."]`, whose first chunk has length
6 — it exceeds the limit although it is not a single unsplittable word or
sentence (every sentence of the text, and every word of every sentence, fits
within the limit).  The greedy check `(currentChunk + sentence).length <=
maxChunkSize` ignores the joining space that is then appended, so packed
chunks may exceed the limit by one.  The same arithmetic occurs at the
default limit 4000 (e.g. sentences of lengths 1999 and 2001). -/
theorem chunk_bound_counterexample :
    splitTextIntoChunks "a. bc. d." 5 = ["a. bc.", "d."] ∧
    5 < ("a. bc." : String).length ∧
    (∀ s ∈ splitSentences ("a. bc. d." : String).toList,
      s.length ≤ 5 ∧ ∀ w ∈ splitSpace s, w.length ≤ 5) := by decide

/-- Claim C2 as amended: for every text and chunk size limit, joining the
chunks returned by `splitTextIntoChunks` with single spaces reproduces the
original text's words in original order, and every returned chunk has length
at most `maxChunkSize + 1` (the greedy length check does not count the
joining space), except that a chunk that is a single sentence of the text,
or a single word of one of its sentences, may be emitted oversized rather
than dropped. -/
theorem splitTextIntoChunks_spec (text : String) (maxChunkSize : Nat) :
    wordsOf (joinSp ((splitTextIntoChunks text maxChunkSize).map String.toList)) =
      wordsOf text.toList ∧
    ∀ chunk ∈ splitTextIntoChunks text maxChunkSize,
      chunk.length ≤ maxChunkSize + 1 ∨
        chunk.toList ∈ splitSentences text.toList ∨
        ∃ s ∈ splitSentences text.toList, chunk.toList ∈ splitSpace s :=
  ⟨splitTextIntoChunks_words text maxChunkSize, splitTextIntoChunks_bound text maxChunkSize⟩

/-- Witness for `splitTextIntoChunks_spec`: its chunk-membership hypothesis
discharged on the concrete chunk `"d."` of `"a. bc. d."` at limit 5. -/
theorem splitTextIntoChunks_spec_witness :
    ("d." : String).length ≤ 5 + 1 ∨
      ("d." : String).toList ∈ splitSentences ("a. bc. d." : String).toList ∨
      ∃ s ∈ splitSentences ("a. bc. d." : String).toList,
        ("d." : String).toList ∈ splitSpace s :=
  (splitTextIntoChunks_spec "a. bc. d." 5).2 "d." (by decide)
